import Mathlib

/-!
Shallow embedding of the gorkpool worker pool (Go, package `gorkpool`).

The pool (`gorkpool.go`) keeps a mutex-guarded map `workers : map[Id]GorkWorker`,
a `sync.WaitGroup` counting one unit per started worker goroutine, and the shared
input/output channels.  `AddWorker` builds a worker through the caller-supplied
factory, then under the mutex checks the map for the worker's own reported
identity `w.ID()` and, when absent, does `wg.Add(1)`, inserts the worker and
spawns its `Process` loop.  `RemoveWorker` / `RemoveWorkerById` delete an entry
under the mutex and invoke `SignalRemoval` on the removed worker after releasing
the mutex.  `gracefullyShutdown` waits for the context, closes the input
channel, waits the waitgroup and finally closes the output channel.

The embedding models the Go map as an association list with the map operations
written out (`mapLookup`, `mapDelete`, `mapSet`), the waitgroup as the count of
`wg.Add(1)` calls, the spawned goroutines as the list of workers whose `Process`
loop was started, and the locking/signalling behaviour of the removal operations
as an explicit event trace.  Channels carry no data relevant to the registry
claims; their Go channel-direction types are modelled separately for the
`OutputCh` accessor.  The factory function is a pool field in Go set once at
construction and never mutated; here it is passed explicitly to `AddWorker` so
that the pool state stays decidable.
-/

namespace Gorkpool

/-- A worker as the pool sees it through the `GorkWorker` interface: `wid` is
the value its `ID()` method reports, `tag` distinguishes distinct worker
objects that report equal identities. -/
structure GorkWorker (Id : Type) where
  wid : Id
  tag : Nat
  deriving DecidableEq, Repr

/-- Errors `AddWorker` can return: the factory's own error value propagated
unchanged, or the `ErrIdConflict` of `errors.go` carrying the conflicting
identity built by `NewErrIdConflict`. -/
inductive AddErr (Id E : Type) where
  | factory (e : E)
  | idConflict (id : Id)
  deriving DecidableEq, Repr

/-- Lookup in the association list modelling the Go map `p.workers`:
`mapLookup m k` is `m[k]` (first entry with key `k`). -/
def mapLookup {Id W : Type} [DecidableEq Id] : List (Id × W) → Id → Option W
  | [], _ => none
  | (k, w) :: rest, k' => if k = k' then some w else mapLookup rest k'

/-- Deletion from the association list: `mapDelete m k` is `delete(m, k)`,
removing every entry keyed `k`. -/
def mapDelete {Id W : Type} [DecidableEq Id] : List (Id × W) → Id → List (Id × W)
  | [], _ => []
  | (k, w) :: rest, k' =>
      if k = k' then mapDelete rest k' else (k, w) :: mapDelete rest k'

/-- Map assignment `m[k] = w`: any previous binding of `k` is replaced. -/
def mapSet {Id W : Type} [DecidableEq Id] (m : List (Id × W)) (k : Id) (w : W) :
    List (Id × W) :=
  mapDelete m k ++ [(k, w)]

/-- Number of entries of the association list keyed `k`. -/
def countKey {Id W : Type} [DecidableEq Id] (m : List (Id × W)) (k : Id) : Nat :=
  m.countP (fun e => decide (e.1 = k))

/-- State of a `GorkPool`: the registry map, the waitgroup counter (one
`wg.Add(1)` per started goroutine) and the list of workers whose `Process`
loop has been spawned. -/
structure GorkPool (Id : Type) where
  workers : List (Id × GorkWorker Id)
  wgCount : Nat
  started : List (GorkWorker Id)
  deriving DecidableEq, Repr

/-- The pool as built by `NewGorkPool`: empty map, waitgroup at zero, no
goroutine spawned yet. -/
def emptyPool {Id : Type} : GorkPool Id := ⟨[], 0, []⟩

/-- `AddWorker(id)`: call the factory; on factory error propagate it and leave
the pool untouched.  On success, under the mutex: if the map already has an
entry for `w.ID()` return `NewErrIdConflict(w.ID())`, otherwise `wg.Add(1)`,
insert under `w.ID()` and spawn `w.Process` on a new goroutine. -/
def AddWorker {Id E : Type} [DecidableEq Id]
    (createWorkerFn : Id → Except E (GorkWorker Id))
    (p : GorkPool Id) (id : Id) : Except (AddErr Id E) Unit × GorkPool Id :=
  match createWorkerFn id with
  | .error err => (.error (.factory err), p)
  | .ok w =>
    match mapLookup p.workers w.wid with
    | some _ => (.error (.idConflict w.wid), p)
    | none =>
      (.ok (),
       { workers := mapSet p.workers w.wid w
         wgCount := p.wgCount + 1
         started := p.started ++ [w] })

/-- Observable events of a removal call: taking and releasing the pool mutex,
deleting a registry key, and calling `SignalRemoval` on a worker. -/
inductive PoolEvent (Id : Type) where
  | lock
  | unlock
  | deleteKey (id : Id)
  | signalRemoval (w : GorkWorker Id)
  deriving DecidableEq, Repr

/-- `RemoveWorker()`: under the mutex, delete the first entry the map
iteration yields (Go map iteration order is unspecified; the list order of
the model stands for whatever order the runtime produces); after unlocking,
if an entry was removed, call `SignalRemoval` on it and return it, else
return nil.  The result is the returned worker, the new pool state, and the
event trace of the call. -/
def RemoveWorker {Id : Type} [DecidableEq Id] (p : GorkPool Id) :
    Option (GorkWorker Id) × GorkPool Id × List (PoolEvent Id) :=
  match p.workers with
  | [] => (none, p, [.lock, .unlock])
  | (id, w) :: rest =>
    (some w, { p with workers := mapDelete ((id, w) :: rest) id },
     [.lock, .deleteKey id, .unlock, .signalRemoval w])

/-- `RemoveWorkerById(id)`: under the mutex, look the id up; if absent unlock
and return nil; if present delete it, unlock, then call `SignalRemoval` on the
removed worker and return it. -/
def RemoveWorkerById {Id : Type} [DecidableEq Id] (p : GorkPool Id) (id : Id) :
    Option (GorkWorker Id) × GorkPool Id × List (PoolEvent Id) :=
  match mapLookup p.workers id with
  | none => (none, p, [.lock, .unlock])
  | some w =>
    (some w, { p with workers := mapDelete p.workers id },
     [.lock, .deleteKey id, .unlock, .signalRemoval w])

/-- `Length()`: size of the registry map, read under the mutex. -/
def Length {Id : Type} (p : GorkPool Id) : Nat := p.workers.length

/-- `Contains(id)`: membership test on the registry map, read under the
mutex. -/
def Contains {Id : Type} [DecidableEq Id] (p : GorkPool Id) (id : Id) : Bool :=
  (mapLookup p.workers id).isSome

/-- One registry-mutating call of the pool API, for whole-trace reasoning. -/
inductive PoolOp (Id : Type) where
  | addWorker (id : Id)
  | removeWorker
  | removeWorkerById (id : Id)
  deriving DecidableEq, Repr

/-- Run one pool operation on `(pool, successful adds, successful removals)`,
counting an add as successful when `AddWorker` returns nil error and a removal
as successful when it returns a worker. -/
def stepOp {Id E : Type} [DecidableEq Id]
    (createWorkerFn : Id → Except E (GorkWorker Id))
    (s : GorkPool Id × Nat × Nat) (op : PoolOp Id) : GorkPool Id × Nat × Nat :=
  match op with
  | .addWorker id =>
    match AddWorker createWorkerFn s.1 id with
    | (.ok _, p') => (p', s.2.1 + 1, s.2.2)
    | (.error _, p') => (p', s.2.1, s.2.2)
  | .removeWorker =>
    match RemoveWorker s.1 with
    | (some _, p', _) => (p', s.2.1, s.2.2 + 1)
    | (none, p', _) => (p', s.2.1, s.2.2)
  | .removeWorkerById id =>
    match RemoveWorkerById s.1 id with
    | (some _, p', _) => (p', s.2.1, s.2.2 + 1)
    | (none, p', _) => (p', s.2.1, s.2.2)

/-- Run a sequence of pool operations from the freshly constructed pool,
returning the final pool together with the number of successful adds and of
removals that actually removed a worker. -/
def runOps {Id E : Type} [DecidableEq Id]
    (createWorkerFn : Id → Except E (GorkWorker Id))
    (ops : List (PoolOp Id)) : GorkPool Id × Nat × Nat :=
  ops.foldl (stepOp createWorkerFn) (emptyPool, 0, 0)

/-- The identities passed to the `AddWorker` calls of an operation sequence. -/
def addIds {Id : Type} (ops : List (PoolOp Id)) : List Id :=
  ops.filterMap (fun op =>
    match op with
    | .addWorker id => some id
    | _ => none)

/-- The factory the repository's tests use: it always succeeds and echoes the
requested identity back (`newTestWorker(id, ...)` whose `ID()` returns `id`). -/
def echoFactory : Nat → Except Unit (GorkWorker Nat) :=
  fun i => .ok ⟨i, i⟩

/-- The `TestRemoveWorkerById` scenario: add workers with identities 0..9. -/
def scenarioOps : List (PoolOp Nat) :=
  (List.range 10).map PoolOp.addWorker

/-- Pool state after the ten adds of the scenario. -/
def scenarioPool : GorkPool Nat := (runOps echoFactory scenarioOps).1

/-- Pool state after then removing identity 7 by id. -/
def scenarioAfter : GorkPool Nat := (RemoveWorkerById scenarioPool 7).2.1

/-- The registry keys are pairwise distinct, as in a Go map. -/
def keysNodup {Id W : Type} (m : List (Id × W)) : Prop :=
  (m.map Prod.fst).Nodup

/-- Invariant tying a run of pool operations together: the registry keys stay
distinct, the registry size plus the successful removals equals the
successful adds, and the waitgroup counter counts exactly the started
`Process` goroutines. -/
def InvTrace {Id : Type} (s : GorkPool Id × Nat × Nat) : Prop :=
  keysNodup s.1.workers ∧ s.1.workers.length + s.2.2 = s.2.1 ∧
    s.1.wgCount = s.1.started.length

/-- A pool holding the single worker of identity 0 produced by the echo
factory. -/
def onePool : GorkPool Nat := (AddWorker echoFactory emptyPool 0).2

/-- Direction of a Go channel type: `chan T`, `<-chan T` or `chan<- T`. -/
inductive ChanDir where
  | bidirectional
  | recvOnly
  | sendOnly
  deriving DecidableEq, Repr

/-- A channel handle as typed in the Go source: only its direction matters for
the interface claims. -/
structure ChanHandle where
  dir : ChanDir
  deriving DecidableEq, Repr

/-- Whether the Go type system lets a holder of this handle send into the
channel. -/
def canSend (c : ChanHandle) : Bool :=
  match c.dir with
  | .recvOnly => false
  | _ => true

/-- Whether the Go type system lets a holder of this handle receive from the
channel. -/
def canRecv (c : ChanHandle) : Bool :=
  match c.dir with
  | .sendOnly => false
  | _ => true

/-- The channel fields of the pool struct, typed `inputCh chan Task` and
`outputCh chan Result` in `gorkpool.go`. -/
structure PoolChans where
  inputCh : ChanHandle
  outputCh : ChanHandle
  deriving DecidableEq, Repr

/-- The channels as stored by `NewGorkPool`: both parameters are declared with
the bidirectional channel types `chan Task` and `chan Result`. -/
def newPoolChans : PoolChans :=
  ⟨⟨.bidirectional⟩, ⟨.bidirectional⟩⟩

/-- `OutputCh()` returns the `outputCh` field unchanged; its declared result
type in the source is `chan Result`. -/
def OutputCh (p : PoolChans) : ChanHandle := p.outputCh

/-- The four statements of `gracefullyShutdown`, in program order: receive
from `ctx.Done()`, `close(p.inputCh)`, `p.wg.Wait()`, `close(p.outputCh)`. -/
inductive ShutdownStep where
  | waitCtxDone
  | closeInputCh
  | waitAllWorkers
  | closeOutputCh
  deriving DecidableEq, Repr

/-- The body of `gracefullyShutdown` as the sequence of its statements:
`<-p.ctx.Done(); close(p.inputCh); p.wg.Wait(); close(p.outputCh)`. -/
def gracefullyShutdown : List ShutdownStep :=
  [.waitCtxDone, .closeInputCh, .waitAllWorkers, .closeOutputCh]

/-- Outcome of one `AddWorker` call in the two-thread model: nil error, or the
`ErrIdConflict` return. -/
inductive AddRes where
  | success
  | idConflict
  deriving DecidableEq, Repr

/-- Program counter of one thread running `AddWorker`: before the factory
call, waiting on `p.mutex.Lock()`, about to read `p.workers[w.ID()]` while
holding the mutex, about to `wg.Add(1)` / insert / spawn while holding the
mutex, about to run the deferred `p.mutex.Unlock()` and return, returned. -/
inductive TPC where
  | start
  | beforeLock
  | checkId
  | insertW
  | unlockRet (r : AddRes)
  | done (r : AddRes)
  deriving DecidableEq, Repr

/-- Shared state of two concurrent `AddWorker` calls (threads `A` and `B`):
who holds `p.mutex`, the registry, the waitgroup counter, the started
goroutines, and both program counters. -/
structure Sys (Id : Type) where
  lockHeld : Option Bool
  reg : List (Id × GorkWorker Id)
  wgCount : Nat
  started : List (GorkWorker Id)
  pcA : TPC
  pcB : TPC
  deriving DecidableEq, Repr

/-- One small step of the thread identified by `me` (its `AddWorker` call
constructed worker `w`).  A thread waiting on the mutex while the other holds
it cannot move; every access to the registry happens between `Lock` and the
deferred `Unlock`, exactly as in the source. -/
def threadStep {Id : Type} [DecidableEq Id] (w : GorkWorker Id) (me : Bool)
    (pc : TPC) (s : Sys Id) : TPC × Sys Id :=
  match pc with
  | .start => (.beforeLock, s)
  | .beforeLock =>
    match s.lockHeld with
    | none => (.checkId, { s with lockHeld := some me })
    | some _ => (.beforeLock, s)
  | .checkId =>
    match mapLookup s.reg w.wid with
    | some _ => (.unlockRet .idConflict, s)
    | none => (.insertW, s)
  | .insertW =>
    (.unlockRet .success,
     { s with reg := mapSet s.reg w.wid w
              wgCount := s.wgCount + 1
              started := s.started ++ [w] })
  | .unlockRet r => (.done r, { s with lockHeld := none })
  | .done r => (.done r, s)

/-- One step of the interleaved system: the scheduler picks thread `A`
(`true`) or thread `B` (`false`). -/
def sysStep {Id : Type} [DecidableEq Id] (wA wB : GorkWorker Id) (s : Sys Id)
    (t : Bool) : Sys Id :=
  match t with
  | true => { (threadStep wA true s.pcA s).2 with pcA := (threadStep wA true s.pcA s).1 }
  | false => { (threadStep wB false s.pcB s).2 with pcB := (threadStep wB false s.pcB s).1 }

/-- Run the two threads under a schedule. -/
def runSched {Id : Type} [DecidableEq Id] (wA wB : GorkWorker Id)
    (sched : List Bool) (s : Sys Id) : Sys Id :=
  sched.foldl (sysStep wA wB) s

/-- Initial state of the two-thread model: mutex free, empty registry, both
calls about to run the factory. -/
def initSys {Id : Type} : Sys Id :=
  ⟨none, [], 0, [], .start, .start⟩

/-- Whether a thread at this program counter holds the mutex. -/
def holding : TPC → Bool
  | .checkId => true
  | .insertW => true
  | .unlockRet _ => true
  | _ => false

/-- Whether a thread at this program counter has performed its insertion and
will return (or has returned) nil. -/
def succPC : TPC → Bool
  | .unlockRet .success => true
  | .done .success => true
  | _ => false

/-- Whether a thread at this program counter will return (or has returned)
`ErrIdConflict`. -/
def failPC : TPC → Bool
  | .unlockRet .idConflict => true
  | .done .idConflict => true
  | _ => false

/-- Invariant of the two-thread model for a common identity `k`: lock
ownership matches the program counters, a thread about to insert has verified
absence and no one can have inserted since, the number of registry entries
keyed `k` counts the successful threads, at most one thread succeeds, and a
failed thread lost to the successful one. -/
def InvSys {Id : Type} [DecidableEq Id] (k : Id) (s : Sys Id) : Prop :=
  (holding s.pcA = true ↔ s.lockHeld = some true) ∧
  (holding s.pcB = true ↔ s.lockHeld = some false) ∧
  (s.pcA = .insertW → mapLookup s.reg k = none) ∧
  (s.pcB = .insertW → mapLookup s.reg k = none) ∧
  countKey s.reg k
    = (if succPC s.pcA then 1 else 0) + (if succPC s.pcB then 1 else 0) ∧
  ¬(succPC s.pcA = true ∧ succPC s.pcB = true) ∧
  (failPC s.pcA = true → succPC s.pcB = true) ∧
  (failPC s.pcB = true → succPC s.pcA = true)

/-- A factory that reports identity 5 regardless of the requested identity,
used to exercise the `w.ID()`-versus-argument distinction. -/
def renameFactory : Nat → Except Unit (GorkWorker Nat) :=
  fun _ => .ok ⟨5, 0⟩

/-- A factory that always fails, with a `Nat` as the opaque error value. -/
def failingFactory : Nat → Except Nat (GorkWorker Nat) :=
  fun _ => .error 17

/-! Association-list lemmas about the map operations. -/

theorem lookup_mapDelete_self {Id W : Type} [DecidableEq Id]
    (m : List (Id × W)) (k : Id) : mapLookup (mapDelete m k) k = none := by
  induction m with
  | nil => rfl
  | cons e rest ih =>
    obtain ⟨k0, w⟩ := e
    by_cases h0 : k0 = k
    · simp [mapDelete, h0, ih]
    · simp [mapDelete, mapLookup, h0, ih]

theorem lookup_mapDelete_ne {Id W : Type} [DecidableEq Id]
    (m : List (Id × W)) (k k' : Id) (h : k' ≠ k) :
    mapLookup (mapDelete m k) k' = mapLookup m k' := by
  induction m with
  | nil => rfl
  | cons e rest ih =>
    obtain ⟨k0, w⟩ := e
    by_cases h0 : k0 = k
    · simp [mapDelete, mapLookup, h0, Ne.symm h, ih]
    · by_cases h1 : k0 = k'
      · simp [mapDelete, mapLookup, h0, h1, h]
      · simp [mapDelete, mapLookup, h0, h1, ih]

theorem mapDelete_of_lookup_none {Id W : Type} [DecidableEq Id]
    (m : List (Id × W)) (k : Id) (h : mapLookup m k = none) :
    mapDelete m k = m := by
  induction m with
  | nil => rfl
  | cons e rest ih =>
    obtain ⟨k0, w⟩ := e
    by_cases h0 : k0 = k
    · simp [mapLookup, h0] at h
    · simp [mapLookup, h0] at h
      simp [mapDelete, h0, ih h]

theorem lookup_append_of_none {Id W : Type} [DecidableEq Id]
    (a b : List (Id × W)) (k : Id) (h : mapLookup a k = none) :
    mapLookup (a ++ b) k = mapLookup b k := by
  induction a with
  | nil => rfl
  | cons e rest ih =>
    obtain ⟨k0, w⟩ := e
    by_cases h0 : k0 = k
    · simp [mapLookup, h0] at h
    · simp [mapLookup, h0] at h
      simp [mapLookup, h0, ih h]

theorem lookup_append_of_some {Id W : Type} [DecidableEq Id]
    (a b : List (Id × W)) (k : Id) (v : W) (h : mapLookup a k = some v) :
    mapLookup (a ++ b) k = some v := by
  induction a with
  | nil => simp [mapLookup] at h
  | cons e rest ih =>
    obtain ⟨k0, w⟩ := e
    by_cases h0 : k0 = k
    · simp only [mapLookup, h0, if_true] at h
      simp [mapLookup, h0, h]
    · simp only [mapLookup, h0, if_false] at h
      simp [mapLookup, h0, ih h]

theorem lookup_mapSet_self {Id W : Type} [DecidableEq Id]
    (m : List (Id × W)) (k : Id) (w : W) :
    mapLookup (mapSet m k w) k = some w := by
  unfold mapSet
  rw [lookup_append_of_none _ _ _ (lookup_mapDelete_self m k)]
  simp [mapLookup]

theorem lookup_mapSet_ne {Id W : Type} [DecidableEq Id]
    (m : List (Id × W)) (k k' : Id) (w : W) (h : k' ≠ k) :
    mapLookup (mapSet m k w) k' = mapLookup m k' := by
  unfold mapSet
  have hdel := lookup_mapDelete_ne m k k' h
  cases hl : mapLookup (mapDelete m k) k' with
  | none =>
    rw [lookup_append_of_none _ _ _ hl]
    rw [hl] at hdel
    simp [mapLookup, Ne.symm h, hdel.symm]
  | some v =>
    rw [lookup_append_of_some _ _ _ _ hl, ← hdel, hl]

theorem lookup_isSome_iff_mem_keys {Id W : Type} [DecidableEq Id]
    (m : List (Id × W)) (k : Id) :
    (mapLookup m k).isSome = true ↔ k ∈ m.map Prod.fst := by
  induction m with
  | nil => simp [mapLookup]
  | cons e rest ih =>
    obtain ⟨k0, w⟩ := e
    by_cases h0 : k0 = k
    · simp [mapLookup, h0]
    · have h1 : ¬k = k0 := fun hh => h0 hh.symm
      simp [mapLookup, h0, h1, ih]

theorem lookup_eq_none_of_not_mem_keys {Id W : Type} [DecidableEq Id]
    (m : List (Id × W)) (k : Id) (h : k ∉ m.map Prod.fst) :
    mapLookup m k = none := by
  have := (lookup_isSome_iff_mem_keys m k).not.mpr h
  cases hl : mapLookup m k with
  | none => rfl
  | some v => rw [hl] at this; simp at this

theorem mem_keys_mapDelete_imp {Id W : Type} [DecidableEq Id]
    (m : List (Id × W)) (k k' : Id)
    (h : k' ∈ (mapDelete m k).map Prod.fst) : k' ∈ m.map Prod.fst := by
  induction m with
  | nil => simp [mapDelete] at h
  | cons e rest ih =>
    obtain ⟨k0, w⟩ := e
    by_cases h0 : k0 = k
    · simp only [mapDelete, if_pos h0] at h
      rw [List.map_cons]
      exact List.mem_cons_of_mem _ (ih h)
    · simp only [mapDelete, if_neg h0, List.map_cons, List.mem_cons] at h
      rw [List.map_cons]
      rcases h with h | h
      · exact List.mem_cons.mpr (.inl h)
      · exact List.mem_cons.mpr (.inr (ih h))

theorem keysNodup_mapDelete {Id W : Type} [DecidableEq Id]
    (m : List (Id × W)) (k : Id) (h : keysNodup m) :
    keysNodup (mapDelete m k) := by
  induction m with
  | nil => exact h
  | cons e rest ih =>
    obtain ⟨k0, w⟩ := e
    rw [keysNodup, List.map_cons, List.nodup_cons] at h
    by_cases h0 : k0 = k
    · simp [mapDelete, h0]
      exact ih h.2
    · have hrest := ih h.2
      rw [keysNodup] at hrest ⊢
      simp only [mapDelete, h0, if_false, List.map_cons, List.nodup_cons]
      exact ⟨fun hm => h.1 (mem_keys_mapDelete_imp rest k k0 hm), hrest⟩

theorem keysNodup_mapSet {Id W : Type} [DecidableEq Id]
    (m : List (Id × W)) (k : Id) (w : W) (h : keysNodup m) :
    keysNodup (mapSet m k w) := by
  have hdel := keysNodup_mapDelete m k h
  have hfresh : k ∉ (mapDelete m k).map Prod.fst := by
    intro hm
    have := (lookup_isSome_iff_mem_keys (mapDelete m k) k).mpr hm
    rw [lookup_mapDelete_self] at this
    simp at this
  rw [keysNodup, mapSet, List.map_append, List.nodup_append]
  refine ⟨hdel, by simp, ?_⟩
  intro x hx
  simp only [List.map_cons, List.map_nil, List.mem_singleton]
  intro hxk
  subst hxk
  exact hfresh hx

theorem length_mapDelete_of_some {Id W : Type} [DecidableEq Id]
    (m : List (Id × W)) (k : Id) (w : W) (hnd : keysNodup m)
    (h : mapLookup m k = some w) : (mapDelete m k).length + 1 = m.length := by
  induction m with
  | nil => simp [mapLookup] at h
  | cons e rest ih =>
    obtain ⟨k0, w0⟩ := e
    rw [keysNodup, List.map_cons, List.nodup_cons] at hnd
    by_cases h0 : k0 = k
    · have hk : k ∉ rest.map Prod.fst := h0 ▸ hnd.1
      have hnone := lookup_eq_none_of_not_mem_keys rest k hk
      simp [mapDelete, h0, mapDelete_of_lookup_none rest k hnone]
    · simp only [mapLookup, h0, if_false] at h
      simp only [mapDelete, h0, if_false, List.length_cons]
      have := ih hnd.2 h
      omega

theorem countKey_append {Id W : Type} [DecidableEq Id]
    (a b : List (Id × W)) (k : Id) :
    countKey (a ++ b) k = countKey a k + countKey b k := by
  simp [countKey, List.countP_append]

theorem countKey_mapDelete_self {Id W : Type} [DecidableEq Id]
    (m : List (Id × W)) (k : Id) : countKey (mapDelete m k) k = 0 := by
  induction m with
  | nil => rfl
  | cons e rest ih =>
    obtain ⟨k0, w⟩ := e
    by_cases h0 : k0 = k
    · simp [mapDelete, h0, ih]
    · simp [countKey, mapDelete, h0, List.countP_cons] at ih ⊢
      exact ih

theorem countKey_mapSet_self {Id W : Type} [DecidableEq Id]
    (m : List (Id × W)) (k : Id) (w : W) : countKey (mapSet m k w) k = 1 := by
  rw [mapSet, countKey_append, countKey_mapDelete_self]
  simp [countKey, List.countP_cons]

theorem countKey_eq_zero_of_lookup_none {Id W : Type} [DecidableEq Id]
    (m : List (Id × W)) (k : Id) (h : mapLookup m k = none) :
    countKey m k = 0 := by
  induction m with
  | nil => rfl
  | cons e rest ih =>
    obtain ⟨k0, w⟩ := e
    by_cases h0 : k0 = k
    · simp [mapLookup, h0] at h
    · simp only [mapLookup, h0, if_false] at h
      have h1 := ih h
      unfold countKey at h1 ⊢
      simp [List.countP_cons, h0, h1]

theorem one_le_countKey_of_lookup_some {Id W : Type} [DecidableEq Id]
    (m : List (Id × W)) (k : Id) (w : W) (h : mapLookup m k = some w) :
    1 ≤ countKey m k := by
  induction m with
  | nil => simp [mapLookup] at h
  | cons e rest ih =>
    obtain ⟨k0, w0⟩ := e
    unfold countKey
    rw [List.countP_cons]
    by_cases h0 : k0 = k
    · simp [h0]
    · simp only [mapLookup, h0, if_false] at h
      have h1 := ih h
      unfold countKey at h1
      omega

/-! Invariant of operation traces: the registry keys stay distinct, the
registry size tracks successful adds and removals, and the waitgroup counts
the started goroutines. -/

theorem stepOp_preserves_inv {Id E : Type} [DecidableEq Id]
    (f : Id → Except E (GorkWorker Id)) (s : GorkPool Id × Nat × Nat)
    (op : PoolOp Id) (h : InvTrace s) : InvTrace (stepOp f s op) := by
  obtain ⟨hnd, heq, hwg⟩ := h
  cases op with
  | addWorker id =>
    cases hf : f id with
    | error e =>
      simp only [stepOp, AddWorker, hf]
      exact ⟨hnd, heq, hwg⟩
    | ok w =>
      cases hl : mapLookup s.1.workers w.wid with
      | some v =>
        simp only [stepOp, AddWorker, hf, hl]
        exact ⟨hnd, heq, hwg⟩
      | none =>
        simp only [stepOp, AddWorker, hf, hl]
        refine ⟨keysNodup_mapSet _ _ _ hnd, ?_, ?_⟩
        · rw [mapSet, mapDelete_of_lookup_none _ _ hl]
          simp only [List.length_append, List.length_cons, List.length_nil]
          omega
        · simp only [List.length_append, List.length_cons, List.length_nil]
          omega
  | removeWorker =>
    cases hw : s.1.workers with
    | nil =>
      simp only [stepOp, RemoveWorker, hw]
      exact ⟨by rw [keysNodup, hw] at hnd ⊢; exact hnd, by rw [hw] at heq ⊢; exact heq, hwg⟩
    | cons e rest =>
      obtain ⟨id0, w0⟩ := e
      simp only [stepOp, RemoveWorker, hw]
      have hnd' : keysNodup ((id0, w0) :: rest) := hw ▸ hnd
      have hlook : mapLookup ((id0, w0) :: rest) id0 = some w0 := by
        simp [mapLookup]
      have hlen := length_mapDelete_of_some _ _ _ hnd' hlook
      rw [hw] at heq
      refine ⟨keysNodup_mapDelete _ _ hnd', ?_, hwg⟩
      simp only [List.length_cons] at heq hlen ⊢
      omega
  | removeWorkerById id =>
    cases hl : mapLookup s.1.workers id with
    | none =>
      simp only [stepOp, RemoveWorkerById, hl]
      exact ⟨hnd, heq, hwg⟩
    | some w =>
      simp only [stepOp, RemoveWorkerById, hl]
      have hlen := length_mapDelete_of_some _ _ _ hnd hl
      refine ⟨keysNodup_mapDelete _ _ hnd, ?_, hwg⟩
      dsimp only
      omega

theorem foldl_stepOp_inv {Id E : Type} [DecidableEq Id]
    (f : Id → Except E (GorkWorker Id)) (ops : List (PoolOp Id))
    (s : GorkPool Id × Nat × Nat) (h : InvTrace s) :
    InvTrace (ops.foldl (stepOp f) s) := by
  induction ops generalizing s with
  | nil => exact h
  | cons op rest ih => exact ih _ (stepOp_preserves_inv f s op h)

theorem runOps_inv {Id E : Type} [DecidableEq Id]
    (f : Id → Except E (GorkWorker Id)) (ops : List (PoolOp Id)) :
    InvTrace (runOps f ops) :=
  foldl_stepOp_inv f ops _ ⟨List.nodup_nil, rfl, rfl⟩

/-! Invariant of the two-thread `AddWorker` interleaving model. -/

theorem invSys_init {Id : Type} [DecidableEq Id] (k : Id) :
    InvSys k (initSys : Sys Id) := by
  unfold InvSys initSys
  refine ⟨?_, ?_, ?_, ?_, ?_, ?_, ?_, ?_⟩ <;>
    simp [holding, succPC, failPC, countKey, mapLookup]

theorem invSys_step {Id : Type} [DecidableEq Id] (wA wB : GorkWorker Id)
    (hB : wB.wid = wA.wid) (s : Sys Id) (t : Bool)
    (h : InvSys wA.wid s) : InvSys wA.wid (sysStep wA wB s t) := by
  obtain ⟨kA, tagA⟩ := wA
  obtain ⟨kB, tagB⟩ := wB
  dsimp only at hB
  subst hB
  obtain ⟨L, reg, wg, st, pcA, pcB⟩ := s
  obtain ⟨h1, h2, h3, h4, h5, h6, h7, h8⟩ := h
  dsimp only at h1 h2 h3 h4 h5 h6 h7 h8 ⊢
  cases t with
  | true =>
    cases pcA with
    | start =>
      simp only [InvSys, sysStep, threadStep]
      refine ⟨?_, h2, ?_, h4, h5, h6, ?_, ?_⟩
      · exact h1
      · intro hx
        exact absurd hx (by decide)
      · intro hx
        exact absurd hx (by decide)
      · intro hf
        exact absurd (h8 hf) (by decide)
    | beforeLock =>
      cases L with
      | none =>
        simp only [InvSys, sysStep, threadStep]
        refine ⟨by decide, ?_, ?_, h4, h5, h6, ?_, ?_⟩
        · constructor
          · intro hb
            exact absurd (h2.mp hb) (by decide)
          · intro hc
            exact absurd hc (by decide)
        · intro hx
          exact absurd hx (by decide)
        · intro hx
          exact absurd hx (by decide)
        · intro hf
          exact absurd (h8 hf) (by decide)
      | some b =>
        simp only [InvSys, sysStep, threadStep]
        exact ⟨h1, h2, h3, h4, h5, h6, h7, h8⟩
    | checkId =>
      cases hl : mapLookup reg kB with
      | some v =>
        simp only [InvSys, sysStep, threadStep, hl]
        refine ⟨h1, h2, ?_, ?_, h5, h6, ?_, ?_⟩
        · intro hx
          exact absurd hx (by decide)
        · intro hb
          have hx := h4 hb
          rw [hx] at hl
          simp at hl
        · intro _
          have hc := one_le_countKey_of_lookup_some reg kB v hl
          rw [h5] at hc
          cases hsb : succPC pcB with
          | true => rfl
          | false =>
            have hck : succPC TPC.checkId = false := rfl
            simp [hck, hsb] at hc
        · intro hf
          exact absurd (h8 hf) (by decide)
      | none =>
        simp only [InvSys, sysStep, threadStep, hl]
        refine ⟨h1, h2, ?_, ?_, h5, h6, ?_, ?_⟩
        · intro _
          trivial
        · intro _
          trivial
        · intro hx
          exact absurd hx (by decide)
        · intro hf
          exact absurd (h8 hf) (by decide)
    | insertW =>
      simp only [InvSys, sysStep, threadStep]
      have hlz : mapLookup reg kB = none := h3 rfl
      have hc0 : countKey reg kB = 0 := countKey_eq_zero_of_lookup_none _ _ hlz
      have hsb : succPC pcB = false := by
        cases hsb : succPC pcB with
        | false => rfl
        | true =>
          rw [hc0] at h5
          have hck : succPC TPC.insertW = false := rfl
          simp [hck, hsb] at h5
      refine ⟨h1, h2, ?_, ?_, ?_, ?_, ?_, ?_⟩
      · intro hx
        exact absurd hx (by decide)
      · intro hb
        have hbt : holding pcB = true := by rw [hb]; rfl
        have hLf := h2.mp hbt
        have hLt := h1.mp rfl
        rw [hLt] at hLf
        simp at hLf
      · rw [countKey_mapSet_self]
        simp only [hsb]
        rfl
      · simp only [hsb]
        decide
      · intro hx
        exact absurd hx (by decide)
      · intro _
        rfl
    | unlockRet r =>
      simp only [InvSys, sysStep, threadStep]
      have hLt : L = some true := h1.mp rfl
      have hbf : holding pcB = false := by
        cases hh : holding pcB with
        | false => rfl
        | true =>
          rw [h2.mp hh] at hLt
          simp at hLt
      cases r with
      | success =>
        refine ⟨by decide, ?_, ?_, h4, h5, h6, ?_, ?_⟩
        · rw [hbf]
          decide
        · intro hx
          exact absurd hx (by decide)
        · intro hx
          exact absurd hx (by decide)
        · intro _
          rfl
      | idConflict =>
        refine ⟨by decide, ?_, ?_, h4, h5, h6, ?_, ?_⟩
        · rw [hbf]
          decide
        · intro hx
          exact absurd hx (by decide)
        · intro _
          exact h7 rfl
        · intro hf
          exact absurd (h8 hf) (by decide)
    | done r =>
      simp only [InvSys, sysStep, threadStep]
      exact ⟨h1, h2, h3, h4, h5, h6, h7, h8⟩
  | false =>
    cases pcB with
    | start =>
      simp only [InvSys, sysStep, threadStep]
      refine ⟨h1, ?_, h3, ?_, h5, h6, ?_, ?_⟩
      · exact h2
      · intro hx
        exact absurd hx (by decide)
      · intro hf
        exact absurd (h7 hf) (by decide)
      · intro hx
        exact absurd hx (by decide)
    | beforeLock =>
      cases L with
      | none =>
        simp only [InvSys, sysStep, threadStep]
        refine ⟨?_, by decide, h3, ?_, h5, h6, ?_, ?_⟩
        · constructor
          · intro ha
            exact absurd (h1.mp ha) (by decide)
          · intro hc
            exact absurd hc (by decide)
        · intro hx
          exact absurd hx (by decide)
        · intro hf
          exact absurd (h7 hf) (by decide)
        · intro hx
          exact absurd hx (by decide)
      | some b =>
        simp only [InvSys, sysStep, threadStep]
        exact ⟨h1, h2, h3, h4, h5, h6, h7, h8⟩
    | checkId =>
      cases hl : mapLookup reg kB with
      | some v =>
        simp only [InvSys, sysStep, threadStep, hl]
        refine ⟨h1, h2, ?_, ?_, h5, h6, ?_, ?_⟩
        · intro ha
          have hx := h3 ha
          rw [hx] at hl
          simp at hl
        · intro hx
          exact absurd hx (by decide)
        · intro hf
          exact absurd (h7 hf) (by decide)
        · intro _
          have hc := one_le_countKey_of_lookup_some reg kB v hl
          rw [h5] at hc
          cases hsa : succPC pcA with
          | true => rfl
          | false =>
            have hck : succPC TPC.checkId = false := rfl
            simp [hck, hsa] at hc
      | none =>
        simp only [InvSys, sysStep, threadStep, hl]
        refine ⟨h1, h2, ?_, ?_, h5, h6, ?_, ?_⟩
        · intro _
          trivial
        · intro _
          trivial
        · intro hf
          exact absurd (h7 hf) (by decide)
        · intro hx
          exact absurd hx (by decide)
    | insertW =>
      simp only [InvSys, sysStep, threadStep]
      have hlz : mapLookup reg kB = none := h4 rfl
      have hc0 : countKey reg kB = 0 := countKey_eq_zero_of_lookup_none _ _ hlz
      have hsa : succPC pcA = false := by
        cases hsa : succPC pcA with
        | false => rfl
        | true =>
          rw [hc0] at h5
          have hck : succPC TPC.insertW = false := rfl
          simp [hck, hsa] at h5
      refine ⟨h1, h2, ?_, ?_, ?_, ?_, ?_, ?_⟩
      · intro ha
        have hat : holding pcA = true := by rw [ha]; rfl
        have hLt := h1.mp hat
        have hLf := h2.mp rfl
        rw [hLt] at hLf
        simp at hLf
      · intro hx
        exact absurd hx (by decide)
      · rw [countKey_mapSet_self]
        simp only [hsa]
        rfl
      · simp only [hsa]
        decide
      · intro _
        rfl
      · intro hx
        exact absurd hx (by decide)
    | unlockRet r =>
      simp only [InvSys, sysStep, threadStep]
      have hLf : L = some false := h2.mp rfl
      have haf : holding pcA = false := by
        cases hh : holding pcA with
        | false => rfl
        | true =>
          rw [h1.mp hh] at hLf
          simp at hLf
      cases r with
      | success =>
        refine ⟨?_, by decide, h3, ?_, h5, h6, ?_, ?_⟩
        · rw [haf]
          decide
        · intro hx
          exact absurd hx (by decide)
        · intro _
          rfl
        · intro hx
          exact absurd hx (by decide)
      | idConflict =>
        refine ⟨?_, by decide, h3, ?_, h5, h6, ?_, ?_⟩
        · rw [haf]
          decide
        · intro hx
          exact absurd hx (by decide)
        · intro hf
          exact absurd (h7 hf) (by decide)
        · intro _
          exact h8 rfl
    | done r =>
      simp only [InvSys, sysStep, threadStep]
      exact ⟨h1, h2, h3, h4, h5, h6, h7, h8⟩

theorem invSys_foldl {Id : Type} [DecidableEq Id] (wA wB : GorkWorker Id)
    (hB : wB.wid = wA.wid) (sched : List Bool) (s : Sys Id)
    (h : InvSys wA.wid s) : InvSys wA.wid (runSched wA wB sched s) := by
  induction sched generalizing s with
  | nil => exact h
  | cons t rest ih => exact ih _ (invSys_step wA wB hB s t h)

/-! The claims. -/

/-- C1: for every sequence of pool operations whose `AddWorker` calls use
pairwise-distinct identities, at every point of observation (that is, after
any prefix `pre` of the full sequence `pre ++ suf`) `Length()` equals the
number of `AddWorker` calls that succeeded minus the number of removal calls
that actually removed a worker. -/
theorem c1_length_adds_minus_removals {Id E : Type} [DecidableEq Id]
    (f : Id → Except E (GorkWorker Id)) (pre suf : List (PoolOp Id))
    (h : (addIds (pre ++ suf)).Nodup) :
    Length (runOps f pre).1 = (runOps f pre).2.1 - (runOps f pre).2.2 ∧
    (runOps f pre).2.2 ≤ (runOps f pre).2.1 := by
  obtain ⟨-, heq, -⟩ := runOps_inv f pre
  unfold Length
  omega

/-- Witness for C1: the concrete trace add 0, add 1, remove one, observed
before a final remove-by-id. -/
theorem c1_witness :
    (addIds (([.addWorker 0, .addWorker 1, .removeWorker] : List (PoolOp Nat))
        ++ [.removeWorkerById 1])).Nodup ∧
    (Length (runOps echoFactory
        ([.addWorker 0, .addWorker 1, .removeWorker] : List (PoolOp Nat))).1
      = (runOps echoFactory
          ([.addWorker 0, .addWorker 1, .removeWorker] : List (PoolOp Nat))).2.1
        - (runOps echoFactory
            ([.addWorker 0, .addWorker 1, .removeWorker] : List (PoolOp Nat))).2.2 ∧
     (runOps echoFactory
        ([.addWorker 0, .addWorker 1, .removeWorker] : List (PoolOp Nat))).2.2
      ≤ (runOps echoFactory
          ([.addWorker 0, .addWorker 1, .removeWorker] : List (PoolOp Nat))).2.1) :=
  ⟨by decide,
   c1_length_adds_minus_removals echoFactory
     [.addWorker 0, .addWorker 1, .removeWorker] [.removeWorkerById 1] (by decide)⟩

/-- C2: `AddWorker` fails only when the factory fails (that error is
propagated unchanged) or when the worker's identity is already registered
(an IdConflict carrying that identity); a failing call mutates nothing: the
pool is unchanged, so `Length`, `Contains` on every identity, the waitgroup
counter and the set of started `Process` goroutines are all untouched. -/
theorem c2_addWorker_failure_no_mutation {Id E : Type} [DecidableEq Id]
    (f : Id → Except E (GorkWorker Id)) (p : GorkPool Id) (id : Id)
    (e : AddErr Id E) (p' : GorkPool Id)
    (h : AddWorker f p id = (.error e, p')) :
    p' = p ∧
    ((∃ e0, f id = .error e0 ∧ e = .factory e0) ∨
      (∃ w, f id = .ok w ∧ Contains p w.wid = true ∧ e = .idConflict w.wid)) ∧
    Length p' = Length p ∧ (∀ j, Contains p' j = Contains p j) ∧
    p'.wgCount = p.wgCount ∧ p'.started = p.started := by
  cases hf : f id with
  | error e0 =>
    simp only [AddWorker, hf, Prod.mk.injEq] at h
    obtain ⟨he, hp⟩ := h
    simp only [Except.error.injEq] at he
    subst hp
    exact ⟨rfl, .inl ⟨e0, rfl, he.symm⟩, rfl, fun j => rfl, rfl, rfl⟩
  | ok w =>
    cases hl : mapLookup p.workers w.wid with
    | none =>
      simp only [AddWorker, hf, hl, Prod.mk.injEq] at h
      exact absurd h.1 (by simp)
    | some v =>
      simp only [AddWorker, hf, hl, Prod.mk.injEq] at h
      obtain ⟨he, hp⟩ := h
      simp only [Except.error.injEq] at he
      subst hp
      refine ⟨rfl, .inr ⟨w, rfl, ?_, he.symm⟩, rfl, fun j => rfl, rfl, rfl⟩
      unfold Contains
      rw [hl]
      rfl

/-- Witness for C2 at the always-failing factory on the empty pool. -/
theorem c2_witness :
    AddWorker failingFactory emptyPool 0
        = (Except.error (AddErr.factory 17), (emptyPool : GorkPool Nat)) ∧
    ((emptyPool : GorkPool Nat) = emptyPool ∧
      ((∃ e0, failingFactory 0 = Except.error e0 ∧
          (AddErr.factory 17 : AddErr Nat Nat) = AddErr.factory e0) ∨
        (∃ w, failingFactory 0 = Except.ok w ∧
          Contains (emptyPool : GorkPool Nat) w.wid = true ∧
          (AddErr.factory 17 : AddErr Nat Nat) = AddErr.idConflict w.wid)) ∧
      Length (emptyPool : GorkPool Nat) = Length (emptyPool : GorkPool Nat) ∧
      (∀ j, Contains (emptyPool : GorkPool Nat) j
          = Contains (emptyPool : GorkPool Nat) j) ∧
      (emptyPool : GorkPool Nat).wgCount = (emptyPool : GorkPool Nat).wgCount ∧
      (emptyPool : GorkPool Nat).started = (emptyPool : GorkPool Nat).started) :=
  ⟨rfl, c2_addWorker_failure_no_mutation failingFactory emptyPool 0
      (AddErr.factory 17) emptyPool rfl⟩

/-- C3: `RemoveWorkerById(id)` on an absent id returns nil and changes
nothing; on a present id it returns exactly the worker registered under that
id and afterwards `Contains(id)` is false. -/
theorem c3_removeWorkerById_spec {Id : Type} [DecidableEq Id]
    (p : GorkPool Id) (id : Id) :
    (Contains p id = false →
      RemoveWorkerById p id = (none, p, [.lock, .unlock])) ∧
    (∀ w, mapLookup p.workers id = some w →
      (RemoveWorkerById p id).1 = some w ∧
      Contains (RemoveWorkerById p id).2.1 id = false) := by
  constructor
  · intro h
    have hnone : mapLookup p.workers id = none := by
      cases hl : mapLookup p.workers id with
      | none => rfl
      | some v =>
        unfold Contains at h
        rw [hl] at h
        simp at h
    simp [RemoveWorkerById, hnone]
  · intro w hw
    constructor
    · simp [RemoveWorkerById, hw]
    · simp [RemoveWorkerById, hw, Contains, lookup_mapDelete_self]

/-- Witness for C3: the one-worker pool, with present id 0 and absent id 1. -/
theorem c3_witness :
    ((RemoveWorkerById onePool 0).1 = some ⟨0, 0⟩ ∧
      Contains (RemoveWorkerById onePool 0).2.1 0 = false) ∧
    RemoveWorkerById onePool 1 = (none, onePool, [.lock, .unlock]) :=
  ⟨(c3_removeWorkerById_spec onePool 0).2 ⟨0, 0⟩ (by decide),
   (c3_removeWorkerById_spec onePool 1).1 (by decide)⟩

/-- C4: `RemoveWorker` on an empty pool returns nil without error and leaves
`Length()` unchanged at 0, and removing a non-existent worker is a no-op
returning nil for both removal operations (their return types carry no error
at all). -/
theorem c4_remove_absent_no_error {Id : Type} [DecidableEq Id]
    (p : GorkPool Id) (id : Id) :
    (p.workers = [] →
      RemoveWorker p = (none, p, [.lock, .unlock]) ∧
      Length (RemoveWorker p).2.1 = 0) ∧
    (Contains p id = false →
      RemoveWorkerById p id = (none, p, [.lock, .unlock])) := by
  constructor
  · intro h
    constructor
    · simp [RemoveWorker, h]
    · simp [RemoveWorker, h, Length]
  · intro h
    have hnone : mapLookup p.workers id = none := by
      cases hl : mapLookup p.workers id with
      | none => rfl
      | some v =>
        unfold Contains at h
        rw [hl] at h
        simp at h
    simp [RemoveWorkerById, hnone]

/-- Witness for C4 at the empty pool. -/
theorem c4_witness :
    (RemoveWorker (emptyPool : GorkPool Nat) = (none, emptyPool, [.lock, .unlock]) ∧
      Length (RemoveWorker (emptyPool : GorkPool Nat)).2.1 = 0) ∧
    RemoveWorkerById (emptyPool : GorkPool Nat) 3 = (none, emptyPool, [.lock, .unlock]) :=
  ⟨(c4_remove_absent_no_error emptyPool 3).1 rfl,
   (c4_remove_absent_no_error emptyPool 3).2 (by decide)⟩

/-- C5: starting from the empty pool, the ten adds with identities 0..9 all
succeed, `Length()` is 10 and every identity is present; after
`RemoveWorkerById 7`, `Length()` is 9, identity 7 is absent and every other
identity is still present. -/
theorem c5_scenario_add10_remove7 :
    (runOps echoFactory scenarioOps).2.1 = 10 ∧
    (runOps echoFactory scenarioOps).2.2 = 0 ∧
    Length scenarioPool = 10 ∧
    ((List.range 10).all (fun i => Contains scenarioPool i)) = true ∧
    (RemoveWorkerById scenarioPool 7).1 = some ⟨7, 7⟩ ∧
    Length scenarioAfter = 9 ∧
    Contains scenarioAfter 7 = false ∧
    ((List.range 10).all (fun i => i == 7 || Contains scenarioAfter i)) = true := by
  decide

/-- C6: `gracefullyShutdown` closes the input channel immediately after the
cancellation signal and before waiting on any worker, closes the output
channel only after the wait on the waitgroup, and closing the output channel
is its final statement; the waitgroup being waited on counts exactly one unit
per `Process` goroutine ever started. -/
theorem c6_shutdown_order {Id E : Type} [DecidableEq Id]
    (f : Id → Except E (GorkWorker Id)) (ops : List (PoolOp Id)) :
    gracefullyShutdown.indexOf .closeInputCh
        = gracefullyShutdown.indexOf .waitCtxDone + 1 ∧
    gracefullyShutdown.indexOf .closeInputCh
        < gracefullyShutdown.indexOf .waitAllWorkers ∧
    gracefullyShutdown.indexOf .waitAllWorkers
        < gracefullyShutdown.indexOf .closeOutputCh ∧
    gracefullyShutdown.getLast? = some .closeOutputCh ∧
    gracefullyShutdown.count .closeOutputCh = 1 ∧
    (runOps f ops).1.wgCount = (runOps f ops).1.started.length := by
  refine ⟨by decide, by decide, by decide, by decide, by decide, ?_⟩
  obtain ⟨-, -, hwg⟩ := runOps_inv f ops
  exact hwg

/-- Witness for C6 at the echo factory and the 0..9 scenario trace. -/
theorem c6_witness :
    gracefullyShutdown.indexOf .closeInputCh
        = gracefullyShutdown.indexOf .waitCtxDone + 1 ∧
    gracefullyShutdown.indexOf .closeInputCh
        < gracefullyShutdown.indexOf .waitAllWorkers ∧
    gracefullyShutdown.indexOf .waitAllWorkers
        < gracefullyShutdown.indexOf .closeOutputCh ∧
    gracefullyShutdown.getLast? = some .closeOutputCh ∧
    gracefullyShutdown.count .closeOutputCh = 1 ∧
    (runOps echoFactory scenarioOps).1.wgCount
        = (runOps echoFactory scenarioOps).1.started.length :=
  c6_shutdown_order echoFactory scenarioOps

/-- C7: a removal call that removes worker w deletes the registry entry
inside the critical section and invokes `SignalRemoval` exactly once on
exactly that worker, after the unlock; a removal call that removes nothing
never invokes `SignalRemoval`. -/
theorem c7_signalRemoval_once {Id : Type} [DecidableEq Id]
    (p : GorkPool Id) (id : Id) :
    (∀ w, (RemoveWorkerById p id).1 = some w →
      (RemoveWorkerById p id).2.2
        = [.lock, .deleteKey id, .unlock, .signalRemoval w]) ∧
    ((RemoveWorkerById p id).1 = none →
      ∀ w, PoolEvent.signalRemoval w ∉ (RemoveWorkerById p id).2.2) ∧
    (∀ w, (RemoveWorker p).1 = some w →
      ∃ did, (RemoveWorker p).2.2
        = [.lock, .deleteKey did, .unlock, .signalRemoval w]) ∧
    ((RemoveWorker p).1 = none →
      ∀ w, PoolEvent.signalRemoval w ∉ (RemoveWorker p).2.2) := by
  refine ⟨?_, ?_, ?_, ?_⟩
  · intro w hw
    cases hl : mapLookup p.workers id with
    | none =>
      simp only [RemoveWorkerById, hl] at hw
      cases hw
    | some v =>
      simp only [RemoveWorkerById, hl, Option.some.injEq] at hw
      subst hw
      simp only [RemoveWorkerById, hl]
  · intro h w
    cases hl : mapLookup p.workers id with
    | some v =>
      simp only [RemoveWorkerById, hl] at h
      cases h
    | none =>
      simp only [RemoveWorkerById, hl]
      simp
  · intro w hw
    cases hp : p.workers with
    | nil =>
      simp only [RemoveWorker, hp] at hw
      cases hw
    | cons e rest =>
      obtain ⟨i0, w0⟩ := e
      simp only [RemoveWorker, hp, Option.some.injEq] at hw
      subst hw
      simp only [RemoveWorker, hp]
      exact ⟨i0, rfl⟩
  · intro h w
    cases hp : p.workers with
    | cons e rest =>
      obtain ⟨i0, w0⟩ := e
      simp only [RemoveWorker, hp] at h
      cases h
    | nil =>
      simp only [RemoveWorker, hp]
      simp

/-- Witness for C7: present and absent removals on concrete pools. -/
theorem c7_witness :
    (RemoveWorkerById onePool 0).2.2
        = [PoolEvent.lock, .deleteKey 0, .unlock, .signalRemoval ⟨0, 0⟩] ∧
    (∀ w, PoolEvent.signalRemoval w ∉ (RemoveWorkerById onePool 5).2.2) ∧
    (∃ did, (RemoveWorker onePool).2.2
        = [PoolEvent.lock, .deleteKey did, .unlock, .signalRemoval ⟨0, 0⟩]) ∧
    (∀ w, PoolEvent.signalRemoval w ∉ (RemoveWorker (emptyPool : GorkPool Nat)).2.2) :=
  ⟨(c7_signalRemoval_once onePool 0).1 ⟨0, 0⟩ (by decide),
   (c7_signalRemoval_once onePool 5).2.1 (by decide),
   (c7_signalRemoval_once onePool 0).2.2.1 ⟨0, 0⟩ (by decide),
   (c7_signalRemoval_once emptyPool 0).2.2.2 (by decide)⟩

/-- C8 counterexample: `OutputCh` does not hand out a receive-only handle.
Its declared Go result type is the bidirectional `chan Result`, so the type
system lets the holder send into the returned channel, contradicting the
claim that the caller can only consume from it. -/
theorem c8_outputCh_not_readonly :
    (OutputCh newPoolChans).dir ≠ ChanDir.recvOnly ∧
    canSend (OutputCh newPoolChans) = true := by
  decide

/-- C8 amended: `OutputCh` returns the pool's output channel itself as a
bidirectional handle; the caller can consume results from it, but the
returned type does not forbid sending. -/
theorem c8_outputCh_bidirectional :
    OutputCh newPoolChans = newPoolChans.outputCh ∧
    (OutputCh newPoolChans).dir = ChanDir.bidirectional ∧
    canRecv (OutputCh newPoolChans) = true := by
  decide

/-- C9: when the factory succeeds with worker w, `AddWorker` keys the
duplicate check, the insertion and the IdConflict payload by the worker's own
reported identity `w.ID()`, not the argument id: a successful add makes
`Contains(w.ID())` true while an unrelated argument id stays absent, and a
conflicting add fails with an error carrying `w.ID()`. -/
theorem c9_addWorker_uses_reported_id {Id E : Type} [DecidableEq Id]
    (f : Id → Except E (GorkWorker Id)) (p : GorkPool Id) (id : Id)
    (w : GorkWorker Id) (hf : f id = .ok w) :
    (Contains p w.wid = false →
      (AddWorker f p id).1 = .ok () ∧
      Contains (AddWorker f p id).2 w.wid = true ∧
      (w.wid ≠ id → Contains p id = false →
        Contains (AddWorker f p id).2 id = false)) ∧
    (Contains p w.wid = true →
      (AddWorker f p id).1 = .error (.idConflict w.wid) ∧
      (AddWorker f p id).2 = p) := by
  constructor
  · intro hc
    have hl : mapLookup p.workers w.wid = none := by
      cases hx : mapLookup p.workers w.wid with
      | none => rfl
      | some v =>
        unfold Contains at hc
        rw [hx] at hc
        simp at hc
    refine ⟨?_, ?_, ?_⟩
    · simp [AddWorker, hf, hl]
    · simp only [AddWorker, hf, hl, Contains]
      rw [lookup_mapSet_self]
      rfl
    · intro hne hid
      simp only [AddWorker, hf, hl, Contains]
      rw [lookup_mapSet_ne _ _ _ _ (Ne.symm hne)]
      unfold Contains at hid
      exact hid
  · intro hc
    cases hx : mapLookup p.workers w.wid with
    | none =>
      unfold Contains at hc
      rw [hx] at hc
      simp at hc
    | some v =>
      constructor
      · simp [AddWorker, hf, hx]
      · simp [AddWorker, hf, hx]

/-- Witness for C9: a factory reporting identity 5 when asked to add
identity 0. -/
theorem c9_witness :
    renameFactory 0 = Except.ok (⟨5, 0⟩ : GorkWorker Nat) ∧
    (AddWorker renameFactory emptyPool 0).1 = Except.ok () ∧
    Contains (AddWorker renameFactory emptyPool 0).2 5 = true ∧
    Contains (AddWorker renameFactory emptyPool 0).2 0 = false := by
  have h := (c9_addWorker_uses_reported_id renameFactory emptyPool 0
    ⟨5, 0⟩ rfl).1 (by decide)
  exact ⟨rfl, h.1, h.2.1, h.2.2 (by decide) (by decide)⟩

/-- C10: two concurrent `AddWorker` calls whose workers report the same
identity, run under any interleaving that respects the pool mutex: the
registry never holds two entries for that identity, the two calls never both
succeed, and once both have returned exactly one of them succeeded while the
other returned IdConflict. -/
theorem c10_concurrent_addWorker_atomic {Id : Type} [DecidableEq Id]
    (wA wB : GorkWorker Id) (hB : wB.wid = wA.wid) (sched : List Bool) :
    countKey (runSched wA wB sched initSys).reg wA.wid ≤ 1 ∧
    ¬(succPC (runSched wA wB sched initSys).pcA = true ∧
      succPC (runSched wA wB sched initSys).pcB = true) ∧
    (∀ ra rb, (runSched wA wB sched initSys).pcA = TPC.done ra →
      (runSched wA wB sched initSys).pcB = TPC.done rb →
      (ra = AddRes.success ∧ rb = AddRes.idConflict) ∨
      (ra = AddRes.idConflict ∧ rb = AddRes.success)) := by
  obtain ⟨h1, h2, h3, h4, h5, h6, h7, h8⟩ :=
    invSys_foldl wA wB hB sched initSys (invSys_init wA.wid)
  refine ⟨?_, h6, ?_⟩
  · rw [h5]
    cases ha : succPC (runSched wA wB sched initSys).pcA with
    | true =>
      cases hb2 : succPC (runSched wA wB sched initSys).pcB with
      | true => exact absurd ⟨ha, hb2⟩ h6
      | false => decide
    | false =>
      cases hb2 : succPC (runSched wA wB sched initSys).pcB with
      | true => decide
      | false => decide
  · intro ra rb hra hrb
    cases ra with
    | success =>
      cases rb with
      | success =>
        exfalso
        apply h6
        constructor
        · rw [hra]
          rfl
        · rw [hrb]
          rfl
      | idConflict => exact .inl ⟨rfl, rfl⟩
    | idConflict =>
      cases rb with
      | success => exact .inr ⟨rfl, rfl⟩
      | idConflict =>
        exfalso
        have hfa : failPC (runSched wA wB sched initSys).pcA = true := by
          rw [hra]
          rfl
        have hsb := h7 hfa
        rw [hrb] at hsb
        exact absurd hsb (by decide)

/-- Witness for C10: two workers both reporting identity 0, thread A
scheduled to completion and then thread B. -/
theorem c10_witness :
    (⟨0, 1⟩ : GorkWorker Nat).wid = (⟨0, 0⟩ : GorkWorker Nat).wid ∧
    (countKey (runSched (⟨0, 0⟩ : GorkWorker Nat) ⟨0, 1⟩
        [true, true, true, true, true, false, false, false, false, false]
        initSys).reg (⟨0, 0⟩ : GorkWorker Nat).wid ≤ 1 ∧
     ¬(succPC (runSched (⟨0, 0⟩ : GorkWorker Nat) ⟨0, 1⟩
        [true, true, true, true, true, false, false, false, false, false]
        initSys).pcA = true ∧
       succPC (runSched (⟨0, 0⟩ : GorkWorker Nat) ⟨0, 1⟩
        [true, true, true, true, true, false, false, false, false, false]
        initSys).pcB = true) ∧
     (∀ ra rb, (runSched (⟨0, 0⟩ : GorkWorker Nat) ⟨0, 1⟩
        [true, true, true, true, true, false, false, false, false, false]
        initSys).pcA = TPC.done ra →
      (runSched (⟨0, 0⟩ : GorkWorker Nat) ⟨0, 1⟩
        [true, true, true, true, true, false, false, false, false, false]
        initSys).pcB = TPC.done rb →
      (ra = AddRes.success ∧ rb = AddRes.idConflict) ∨
      (ra = AddRes.idConflict ∧ rb = AddRes.success))) :=
  ⟨rfl, c10_concurrent_addWorker_atomic ⟨0, 0⟩ ⟨0, 1⟩ rfl
    [true, true, true, true, true, false, false, false, false, false]⟩

end Gorkpool
